import Mathlib

/-!
# cloud_test_task: reverse-proxy load balancer

Shallow embedding of the balancing core (`internal/models`,
`internal/router/backend/balancer/...`), the health prober, the rate-limiter
gate, the control-plane handler and configuration validation, followed by
theorems about them.

Conventions
* a Go `*models.Server` pool is a `List Server`; a backend is identified by its
  position in the pool (pool order is fixed at start-up);
* `uint32` values are naturals reduced with `% 2 ^ 32`;
* `int`, `time.Duration` are integers (only comparisons are performed on them);
* a Go `nil` pointer result is `none`.
-/

set_option autoImplicit false

namespace CloudTestTask

/-! ## internal/models/models.go -/

/-- The `models.Server` record: parsed URL (kept as its string form) and liveness flag. -/
structure Server where
  URL : String
  Alive : Bool
deriving DecidableEq, Repr

/-- Go `NewServers`: one server per URL, in order, each alive; the first URL that
`url.Parse` (here `parse`) rejects aborts construction with an error. -/
def NewServers (parse : String → Option String) : List String → Except String (List Server)
  | [] => .ok []
  | u :: rest =>
    match parse u with
    | none => .error "failed to parse URL"
    | some ur =>
      match NewServers parse rest with
      | .error e => .error e
      | .ok servers => .ok ({ URL := ur, Alive := true } :: servers)

/-- Go `Server.SetAlive`: overwrite the liveness flag. -/
def Server.SetAlive (s : Server) (status : Bool) : Server :=
  { s with Alive := status }

/-- Go `SetAlive` applied to the backend at position `i` of a pool (the pool holds
pointers, so the update is seen by every holder of the pool). -/
def markAlive (servers : List Server) (i : Nat) (status : Bool) : List Server :=
  servers.modify (fun s => s.SetAlive status) i

/-! ## internal/router/backend/balancer/round_robin/round_robin.go -/

/-- Conversion to `uint32`. -/
def u32 (n : Nat) : Nat := n % 2 ^ 32

/-- The `RoundRobin` balancer: the pool and the atomic `uint32` counter. -/
structure RoundRobin where
  servers : List Server
  index : Nat
deriving DecidableEq, Repr

/-- Go `NewRoundRobin`: counter starts at zero. -/
def NewRoundRobin (servers : List Server) : RoundRobin :=
  { servers := servers, index := 0 }

/-- The `for i := uint32(0); i < uint32(len(rr.servers)); i++` loop of
`RoundRobin.Next`, with `fuel` iterations left, `n = uint32(len(rr.servers))`
and the loop variable `index`.  Returns the position of the server returned by
the loop, `none` when the loop falls through to `return nil`. -/
def RoundRobin.scan (servers : List Server) (n : Nat) : Nat → Nat → Option Nat
  | 0, _ => none
  | fuel + 1, index =>
    match servers[index % n]? with
    | none => none
    | some s =>
      if s.Alive then some (index % n)
      else RoundRobin.scan servers n fuel (u32 (index + 1) % n)

/-- The position picked by one call of `RoundRobin.Next` together with the
balancer after the call.  An empty pool returns `nil` before the counter is
touched; otherwise the counter is incremented once (`atomic.AddUint32`) and the
scan starts at `counter % uint32(len)`. -/
def RoundRobin.pick (rr : RoundRobin) : Option Nat × RoundRobin :=
  if rr.servers.length = 0 then (none, rr)
  else
    let n := u32 rr.servers.length
    let c := u32 (rr.index + 1)
    (RoundRobin.scan rr.servers n n (c % n), { rr with index := c })

/-- Go `RoundRobin.Next`: the server returned (`none` for `nil`) and the balancer
after the call. -/
def RoundRobin.Next (rr : RoundRobin) : Option Server × RoundRobin :=
  ((rr.pick).1.bind (fun i => rr.servers[i]?), (rr.pick).2)

/-- Positions picked by `k` consecutive calls of `RoundRobin.Next`. -/
def RoundRobin.runPick : Nat → RoundRobin → List (Option Nat)
  | 0, _ => []
  | k + 1, rr => (rr.pick).1 :: RoundRobin.runPick k (rr.pick).2

/-- Servers returned by `k` consecutive calls of `RoundRobin.Next`. -/
def RoundRobin.run : Nat → RoundRobin → List (Option Server)
  | 0, _ => []
  | k + 1, rr => (rr.Next).1 :: RoundRobin.run k (rr.Next).2

/-- The balancer after `k` consecutive calls of `RoundRobin.Next`. -/
def RoundRobin.after : Nat → RoundRobin → RoundRobin
  | 0, rr => rr
  | k + 1, rr => RoundRobin.after k (rr.pick).2

/-! ## internal/router/backend/balancer/random_distribution/random distribution.go -/

/-- The two draws `Random.Next` takes from `math/rand`, as functions of the
seed the generator is created from: `Uint64()` and `Intn(n)`. -/
structure Rng where
  uint64 : Nat → Nat
  intn : Nat → Nat → Nat

/-- The `Random` balancer: the pool and the `uint64` seed. -/
structure Random where
  servers : List Server
  seed : Nat
deriving DecidableEq, Repr

/-- The `for i := 0; i < len(r.servers); i++` loop of `Random.Next` with `fuel`
iterations left and loop variable `i`; returns the position of the server
returned, `none` when the loop falls through to `return nil`. -/
def Random.scan (servers : List Server) (index : Nat) : Nat → Nat → Option Nat
  | 0, _ => none
  | fuel + 1, i =>
    let currentIndex := (index + i) % servers.length
    match servers[currentIndex]? with
    | none => none
    | some server =>
      if server.Alive then some currentIndex
      else Random.scan servers index fuel (i + 1)

/-- The position picked by one call of `Random.Next` and the balancer after
the call: the seed is replaced by the generator's next `Uint64`, the start
position is `Intn(len)` of a generator created from the old seed. -/
def Random.pick (g : Rng) (r : Random) : Option Nat × Random :=
  if r.servers.length = 0 then (none, r)
  else
    let oldSeed := r.seed
    let newSeed := g.uint64 oldSeed % 2 ^ 64
    let index := g.intn oldSeed r.servers.length
    (Random.scan r.servers index r.servers.length 0, { r with seed := newSeed })

/-- Go `Random.Next`: the server returned (`none` for `nil`) and the balancer
after the call. -/
def Random.Next (g : Rng) (r : Random) : Option Server × Random :=
  ((r.pick g).1.bind (fun i => r.servers[i]?), (r.pick g).2)

/-! ## net.SplitHostPort (Go standard library), used by the rate-limiter gate -/

/-- Position of the first occurrence of `c`, `none` standing for Go's `-1`. -/
def indexByte : List Char → Char → Option Nat
  | [], _ => none
  | x :: xs, c => if x = c then some 0 else (indexByte xs c).map (· + 1)

/-- Position of the last occurrence of `c`, `none` standing for Go's `-1`. -/
def lastIndexByte : List Char → Char → Option Nat
  | [], _ => none
  | x :: xs, c =>
    match lastIndexByte xs c with
    | some i => some (i + 1)
    | none => if x = c then some 0 else none

/-- The reasons for which `net.SplitHostPort` fails. -/
inductive AddrError where
  | missingPort
  | tooManyColons
  | missingCloseBracket
  | unexpectedOpenBracket
  | unexpectedCloseBracket
deriving DecidableEq, Repr

/-- The `(host, port string, err error)` triple returned by `net.SplitHostPort`. -/
structure HostPort where
  host : String
  port : String
  err : Option AddrError
deriving DecidableEq, Repr

/-- The `addrErr` closure of `net.SplitHostPort`: both strings empty and an error. -/
def addrErr (why : AddrError) : HostPort :=
  { host := "", port := "", err := some why }

/-- Tail of `net.SplitHostPort`: the bracket checks on `hostport[j:]` and
`hostport[k:]`, then the successful return with `port = hostport[i+1:]`. -/
def splitFinish (s : List Char) (i : Nat) (host : List Char) (j k : Nat) : HostPort :=
  if (indexByte (s.drop j) '[').isSome then addrErr .unexpectedOpenBracket
  else if (indexByte (s.drop k) ']').isSome then addrErr .unexpectedCloseBracket
  else { host := String.mk host, port := String.mk (s.drop (i + 1)), err := none }

/-- Go `net.SplitHostPort` on the characters of the address. -/
def splitHostPortChars (s : List Char) : HostPort :=
  match lastIndexByte s ':' with
  | none => addrErr .missingPort
  | some i =>
    if s.head? = some '[' then
      match indexByte s ']' with
      | none => addrErr .missingCloseBracket
      | some e =>
        if e + 1 = s.length then addrErr .missingPort
        else if e + 1 = i then splitFinish s i ((s.take e).drop 1) 1 (e + 1)
        else if s[e + 1]? = some ':' then addrErr .tooManyColons
        else addrErr .missingPort
    else
      let host := s.take i
      if (indexByte host ':').isSome then addrErr .tooManyColons
      else splitFinish s i host 0 0

/-- Go `net.SplitHostPort`. -/
def SplitHostPort (hostport : String) : HostPort :=
  splitHostPortChars hostport.data

/-! ## internal/router/errs/errs.go and HTTP plumbing -/

/-- What a handler writes: a `JSONError` envelope (status code and the `error`
field of the body) or a plain-text body with its status. -/
inductive Response where
  | jsonError (code : Nat) (error : String)
  | text (code : Nat) (body : String)
deriving DecidableEq, Repr

/-- The parts of `http.Request` the handlers look at. -/
structure Request where
  Method : String
  RemoteAddr : String
  URL : String
deriving DecidableEq, Repr

/-! ## internal/ratelimiter/ratelimiter.go -/

/-- One second as a `time.Duration` (nanoseconds). -/
def Second : Int := 1000000000

/-- The `redis_rate.Limit` record. -/
structure Limit where
  Rate : Int
  Period : Int
  Burst : Int
deriving DecidableEq, Repr

/-- The fields of `redis_rate.Result` the gate reads. -/
structure Result where
  Allowed : Int
  Remaining : Int
  ResetAfter : Int
deriving DecidableEq, Repr

/-- The datastore-backed limiter as seen by one gate invocation: the answer of
`limiter.Allow(ctx, key, limit)`, either an error or a result. -/
abbrev Datastore := String → Limit → Except String Result

/-- The `RedisRateLimiter` state that the gate and the control plane use:
defaults and the `userLimits` map (a missing key is `none`). -/
structure RedisRateLimiter where
  defaultRate : Int
  defaultBurst : Int
  userLimits : String → Option Limit

/-- Everything one invocation of the gate does: the key looked up in
`userLimits`, the `Allow` calls (key and limit), the `Reset` calls (key), the
response written by the gate itself (if any) and how many times the next
handler was invoked. -/
structure GateOutcome where
  lookupKey : String
  allowCalls : List (String × Limit)
  resetCalls : List String
  response : Option Response
  nextCalls : Nat
deriving DecidableEq, Repr

/-- The handler returned by `RedisRateLimiter.RateLimitMiddleware`, run on one
request against a datastore. -/
def RedisRateLimiter.RateLimitMiddleware (rrl : RedisRateLimiter) (ds : Datastore)
    (r : Request) : GateOutcome :=
  let identifier := (SplitHostPort r.RemoteAddr).host
  let limit : Limit :=
    match rrl.userLimits identifier with
    | some userLimit => userLimit
    | none => { Rate := rrl.defaultRate, Period := Second, Burst := rrl.defaultBurst }
  match ds identifier limit with
  | .error _ =>
    { lookupKey := identifier, allowCalls := [(identifier, limit)], resetCalls := [identifier],
      response := some (.jsonError 500 "Internal Server Error"), nextCalls := 0 }
  | .ok res =>
    if res.Allowed = 0 then
      { lookupKey := identifier, allowCalls := [(identifier, limit)], resetCalls := [],
        response := some (.jsonError 429 "Rate limit exceeded"), nextCalls := 0 }
    else
      { lookupKey := identifier, allowCalls := [(identifier, limit)], resetCalls := [],
        response := none, nextCalls := 1 }

/-- Go `RedisRateLimiter.SetUserLimit`: the returned error (`none` for `nil`) and
the rate limiter after the call.  Non-positive values return an error before
the map is touched; otherwise `Limit{newRate, time.Second, newBurst}` is stored
under `userID`. -/
def RedisRateLimiter.SetUserLimit (rrl : RedisRateLimiter) (userID : String)
    (newRate newBurst : Int) : Option String × RedisRateLimiter :=
  if newRate ≤ 0 ∨ newBurst ≤ 0 then (some "rate and burst must be positive", rrl)
  else
    (none, { rrl with
      userLimits := fun k =>
        if k = userID then some { Rate := newRate, Period := Second, Burst := newBurst }
        else rrl.userLimits k })

/-! ## internal/router/router.go -/

/-- The anonymous request struct decoded from the body of `/edit`. -/
structure EditRequest where
  UserIP : String
  NewRate : Int
  NewBurst : Int
deriving DecidableEq, Repr

/-- Go `Router.HandleEdit` on a request with method `method` whose body
`json.Decode` turned into `decoded`; returns the response and the rate limiter
afterwards. -/
def HandleEdit (rl : RedisRateLimiter) (method : String)
    (decoded : Except String EditRequest) : Response × RedisRateLimiter :=
  if method ≠ "POST" then (.jsonError 405 "Only POST method is allowed", rl)
  else
    match decoded with
    | .error _ => (.jsonError 400 "Invalid request format", rl)
    | .ok request =>
      if request.UserIP = "" then (.jsonError 400 "userIP is required", rl)
      else if request.NewRate ≤ 0 ∨ request.NewBurst ≤ 0 then
        (.jsonError 400 "newRate and newBurst must be positive integers", rl)
      else
        match rl.SetUserLimit request.UserIP request.NewRate request.NewBurst with
        | (some _, rl2) => (.jsonError 500 "Failed to update rate limit", rl2)
        | (none, rl2) =>
          (.text 200 ("Rate limit updated for " ++ request.UserIP ++ ": "
            ++ toString request.NewRate ++ "/s (burst " ++ toString request.NewBurst ++ ")"), rl2)

/-! ## internal/config/config.go -/

namespace config

/-- The `healthcheck` section. -/
structure HealthChecker where
  Interval : Int
  Timeout : Int
deriving DecidableEq, Repr

/-- The `rate_limiting` section. -/
structure Rate_limiting where
  Capacity : Int
  Rate_per_second : Int
deriving DecidableEq, Repr

/-- The `storage.redis` section. -/
structure Redis where
  Host : String
  Port : Int
  Password : String
deriving DecidableEq, Repr

/-- The `storage` section. -/
structure Storage where
  Redis : Redis
deriving DecidableEq, Repr

/-- The `balancer` section. -/
structure Balancer where
  Algorithm : String
deriving DecidableEq, Repr

/-- The `Config` record. -/
structure Config where
  Host : String
  Port : String
  Backends : List String
  Rate_limiting : Rate_limiting
  Storage : Storage
  HealthChecker : HealthChecker
  Balancer : Balancer
deriving DecidableEq, Repr

/-- Go `validateConfig`: the error message of the first failed check, `none` for `nil`. -/
def validateConfig (config : Config) : Option String :=
  if config.Rate_limiting.Rate_per_second ≤ 0 then some "rate_per_second must be greater than 0"
  else if config.Rate_limiting.Capacity ≤ 0 then some "capacity must be greater than 0"
  else if config.Storage.Redis.Host = "" then some "redis host must be set"
  else if config.Storage.Redis.Port = 0 then some "redis port must be set"
  else if config.HealthChecker.Interval = 0 then some "healthcheck interval must be set"
  else if config.HealthChecker.Timeout = 0 then some "healthcheck timeout must be set"
  else if config.Host = "" then some "host must be set"
  else if config.Port = "" then some "port must be set"
  else if config.Backends.length = 0 then some "backends must be set"
  else if config.Backends.any (fun backend => backend = "") then some "backend must be set"
  else none

end config

/-! ## internal/router/backend/healthcheck/healthcheck.go -/

namespace healthcheck

/-- The `HealthChecker` record (logger left out). -/
structure HealthChecker where
  interval : Int
  timeout : Int
  backends : List Server
deriving DecidableEq, Repr

/-- Go `NewHealthChecker`. -/
def NewHealthChecker (interval timeout : Int) (backends : List Server) : HealthChecker :=
  { interval := interval, timeout := timeout, backends := backends }

/-- The HTTP request one call of `check` issues: method, URL and the
`http.Client.Timeout` it runs under. -/
structure Probe where
  method : String
  url : String
  clientTimeout : Int
deriving DecidableEq, Repr

/-- The probe built by `HealthChecker.check`: `http.Client{Timeout: hc.interval}`
and `client.Get(backend.URL.String() + "/healthcheck")`. -/
def HealthChecker.probe (hc : HealthChecker) (backend : Server) : Probe :=
  { method := "GET", url := backend.URL ++ "/healthcheck", clientTimeout := hc.interval }

/-- Go `HealthChecker.check`: `get` answers the probe with an error or a status
code; the backend is marked alive exactly on status 200. -/
def HealthChecker.check (hc : HealthChecker) (get : Probe → Except String Nat)
    (backend : Server) : Server :=
  match get (hc.probe backend) with
  | .error _ => backend.SetAlive false
  | .ok statusCode => if statusCode ≠ 200 then backend.SetAlive false else backend.SetAlive true

end healthcheck

/-! ## Derived notions used in the statements -/

/-- Liveness flag of the backend at position `p` (`false` outside the pool). -/
def isAliveAt (servers : List Server) (p : Nat) : Bool :=
  match servers[p]? with
  | some s => s.Alive
  | none => false

/-- The limit resolved for an identifier: its override when present, the
process-wide default otherwise. -/
def resolvedLimit (rrl : RedisRateLimiter) (identifier : String) : Limit :=
  match rrl.userLimits identifier with
  | some userLimit => userLimit
  | none => { Rate := rrl.defaultRate, Period := Second, Burst := rrl.defaultBurst }

/-- The `n` positions `c mod n, (c+1) mod n, ..., (c+n-1) mod n`, in that order. -/
def scanOrder (n c : Nat) : List Nat :=
  (List.range n).map (fun t => (c + t) % n)

/-- Selection rule in the words of the specification: the first alive position
among `positions` taken in order, `none` when none of them is alive. -/
def firstAliveAmong (servers : List Server) (positions : List Nat) : Option Nat :=
  positions.find? (fun p => isAliveAt servers p)

/-! ## Scenario data -/

/-- Pool of scenario S1/S2: three backends `A`, `B`, `C`. -/
def poolABC : List Server :=
  match NewServers some ["http://A", "http://B", "http://C"] with
  | .ok servers => servers
  | .error _ => []

/-- Backend `A` of the scenario pool. -/
def srvA : Server := { URL := "http://A", Alive := true }

/-- Backend `B` of the scenario pool. -/
def srvB : Server := { URL := "http://B", Alive := true }

/-- Backend `C` of the scenario pool. -/
def srvC : Server := { URL := "http://C", Alive := true }

/-- Scenario S2: a fresh round-robin balancer over `[A, B, C]` with `B` marked dead. -/
def s2Balancer : RoundRobin :=
  NewRoundRobin (markAlive poolABC 1 false)

/-- A rate limiter with defaults `(2, 2)` and no overrides. -/
def rlDefault : RedisRateLimiter :=
  { defaultRate := 2, defaultBurst := 2, userLimits := fun _ => none }

/-- A datastore that admits every request. -/
def dsAllow : Datastore := fun _ _ => .ok { Allowed := 1, Remaining := 1, ResetAfter := 0 }

/-- A datastore that denies every request. -/
def dsDeny : Datastore := fun _ _ => .ok { Allowed := 0, Remaining := 0, ResetAfter := Second }

/-- A datastore whose every call fails. -/
def dsDown : Datastore := fun _ _ => .error "connection refused"

/-- A request from a TCP peer. -/
def reqTcp : Request := { Method := "GET", RemoteAddr := "10.0.0.1:51000", URL := "/" }

/-- A request whose remote address carries no port. -/
def reqNoPort : Request := { Method := "GET", RemoteAddr := "10.0.0.1", URL := "/" }

/-- A configuration that passes every check of `validateConfig`. -/
def cfgGood : config.Config :=
  { Host := "0.0.0.0", Port := "8080", Backends := ["http://A"],
    Rate_limiting := { Capacity := 2, Rate_per_second := 2 },
    Storage := { Redis := { Host := "redis", Port := 6379, Password := "" } },
    HealthChecker := { Interval := 5 * Second, Timeout := Second },
    Balancer := { Algorithm := "roundrobin" } }

/-- The configuration `cfgGood` with the redis port set to `-1`. -/
def cfgNegativePort : config.Config :=
  { cfgGood with Storage := { Redis := { Host := "redis", Port := -1, Password := "" } } }


/-! ## Arithmetic of cyclic scans -/

theorem u32_of_lt {n : Nat} (h : n < 2 ^ 32) : u32 n = n :=
  Nat.mod_eq_of_lt h

theorem cyclic_cover (n start p : Nat) (hp : p < n) :
    ∃ t, t < n ∧ (start + t) % n = p := by
  have hn : 0 < n := by omega
  have hr : start % n < n := Nat.mod_lt _ hn
  by_cases h : start % n ≤ p
  · refine ⟨p - start % n, by omega, ?_⟩
    rw [← Nat.mod_add_mod]
    have : start % n + (p - start % n) = p := by omega
    rw [this, Nat.mod_eq_of_lt hp]
  · refine ⟨p + n - start % n, by omega, ?_⟩
    rw [← Nat.mod_add_mod]
    have : start % n + (p + n - start % n) = p + n := by omega
    rw [this, Nat.add_mod_right, Nat.mod_eq_of_lt hp]

theorem isAliveAt_iff (servers : List Server) (p : Nat) :
    isAliveAt servers p = true ↔ ∃ s, servers[p]? = some s ∧ s.Alive = true := by
  unfold isAliveAt
  cases h : servers[p]? with
  | none => simp
  | some s => simp

theorem exists_alive_iff (servers : List Server) :
    (∃ s ∈ servers, s.Alive = true) ↔ ∃ p, p < servers.length ∧ isAliveAt servers p = true := by
  constructor
  · rintro ⟨s, hs, ha⟩
    obtain ⟨p, hp, rfl⟩ := List.getElem_of_mem hs
    exact ⟨p, hp, (isAliveAt_iff _ _).2 ⟨_, List.getElem?_eq_getElem hp, ha⟩⟩
  · rintro ⟨p, _, ha⟩
    obtain ⟨s, hs, hal⟩ := (isAliveAt_iff _ _).1 ha
    exact ⟨s, List.getElem?_mem hs, hal⟩

/-! ## Round-robin scan -/

theorem RoundRobin.scan_some (servers : List Server) (n : Nat) :
    ∀ (fuel index p : Nat), RoundRobin.scan servers n fuel index = some p →
      isAliveAt servers p = true := by
  intro fuel
  induction fuel with
  | zero => intro index p h; simp [RoundRobin.scan] at h
  | succ fuel ih =>
    intro index p h
    unfold RoundRobin.scan at h
    cases hs : servers[index % n]? with
    | none => rw [hs] at h; simp at h
    | some s =>
      rw [hs] at h
      by_cases ha : s.Alive = true
      · simp only [ha, if_true, Option.some.injEq] at h
        subst h
        exact (isAliveAt_iff _ _).2 ⟨s, hs, ha⟩
      · simp only [ha] at h
        exact ih _ _ h

theorem RoundRobin.scan_none (servers : List Server) (n : Nat)
    (hn : n ≤ servers.length) (h32 : n < 2 ^ 32) :
    ∀ (fuel index : Nat), index < n → RoundRobin.scan servers n fuel index = none →
      ∀ t, t < fuel → isAliveAt servers ((index + t) % n) = false := by
  intro fuel
  induction fuel with
  | zero => intro index _ _ t ht; omega
  | succ fuel ih =>
    intro index hi h t ht
    unfold RoundRobin.scan at h
    have hmod : index % n = index := Nat.mod_eq_of_lt hi
    have hlt : index % n < servers.length := by omega
    rw [List.getElem?_eq_getElem hlt] at h
    by_cases ha : (servers[index % n]).Alive = true
    · simp [ha] at h
    · simp only [ha] at h
      have hnext : u32 (index + 1) % n < n := Nat.mod_lt _ (by omega)
      have hu : u32 (index + 1) = index + 1 := u32_of_lt (by omega)
      cases t with
      | zero =>
        unfold isAliveAt
        rw [Nat.add_zero, List.getElem?_eq_getElem hlt]
        simpa using ha
      | succ t =>
        have := ih _ hnext h t (by omega)
        rw [hu, Nat.mod_add_mod] at this
        rw [show index + (t + 1) = index + 1 + t by omega]
        exact this

theorem RoundRobin.pick_alive (rr : RoundRobin) (p : Nat) (h : (rr.pick).1 = some p) :
    isAliveAt rr.servers p = true := by
  unfold RoundRobin.pick at h
  by_cases h0 : rr.servers.length = 0
  · simp [h0] at h
  · simp only [h0, if_false] at h
    exact RoundRobin.scan_some _ _ _ _ _ h

theorem RoundRobin.pick_none (rr : RoundRobin) (hlen : rr.servers.length < 2 ^ 32)
    (h : (rr.pick).1 = none) (p : Nat) : isAliveAt rr.servers p = false := by
  by_cases hp : p < rr.servers.length
  · unfold RoundRobin.pick at h
    have h0 : rr.servers.length ≠ 0 := by omega
    simp only [h0, if_false] at h
    rw [u32_of_lt hlen] at h
    obtain ⟨t, ht, hpt⟩ := cyclic_cover rr.servers.length
      (u32 (rr.index + 1) % rr.servers.length) p hp
    have := RoundRobin.scan_none rr.servers rr.servers.length (le_refl _) hlen _ _
      (Nat.mod_lt _ (by omega)) h t ht
    rwa [hpt] at this
  · unfold isAliveAt
    rw [List.getElem?_eq_none (by omega)]

theorem RoundRobin.next_eq_some_iff (rr : RoundRobin) (s : Server) :
    (rr.Next).1 = some s ↔ ∃ p, (rr.pick).1 = some p ∧ rr.servers[p]? = some s := by
  unfold RoundRobin.Next
  cases h : (rr.pick).1 with
  | none => simp
  | some p => simp

/-- C1: on a pool of fewer than `2 ^ 32` backends (the range of the `uint32`
length used by the code), for every liveness assignment and every counter
value, round-robin `Next` returns a backend iff some backend of the pool is
alive; a returned backend is a member of the pool and its flag is true;
otherwise the result is `nil`. -/
theorem roundRobin_next_some_iff_alive (rr : RoundRobin)
    (hlen : rr.servers.length < 2 ^ 32) :
    ((∃ s, (rr.Next).1 = some s) ↔ ∃ s ∈ rr.servers, s.Alive = true) ∧
    (∀ s, (rr.Next).1 = some s → s ∈ rr.servers ∧ s.Alive = true) ∧
    ((rr.Next).1 = none ↔ ∀ s ∈ rr.servers, s.Alive = false) := by
  have sound : ∀ s, (rr.Next).1 = some s → s ∈ rr.servers ∧ s.Alive = true := by
    intro s hs
    obtain ⟨p, hp, hget⟩ := (RoundRobin.next_eq_some_iff rr s).1 hs
    obtain ⟨s2, hs2, ha⟩ := (isAliveAt_iff _ _).1 (RoundRobin.pick_alive rr p hp)
    rw [hget] at hs2
    cases hs2
    exact ⟨List.getElem?_mem hget, ha⟩
  have complete : (∃ s ∈ rr.servers, s.Alive = true) → ∃ s, (rr.Next).1 = some s := by
    intro hex
    obtain ⟨p, hp, ha⟩ := (exists_alive_iff _).1 hex
    cases hpick : (rr.pick).1 with
    | none =>
      have := RoundRobin.pick_none rr hlen hpick p
      rw [ha] at this
      cases this
    | some q =>
      obtain ⟨s, hs, _⟩ := (isAliveAt_iff _ _).1 (RoundRobin.pick_alive rr q hpick)
      exact ⟨s, (RoundRobin.next_eq_some_iff rr s).2 ⟨q, hpick, hs⟩⟩
  refine ⟨⟨?_, complete⟩, sound, ?_⟩
  · rintro ⟨s, hs⟩
    exact ⟨s, sound s hs⟩
  · constructor
    · intro hnone s hmem
      cases hal : s.Alive with
      | false => rfl
      | true =>
        obtain ⟨s2, hs2⟩ := complete ⟨s, hmem, hal⟩
        rw [hnone] at hs2
        cases hs2
    · intro hall
      cases hnx : (rr.Next).1 with
      | none => rfl
      | some s =>
        have := sound s hnx
        rw [hall s this.1] at this
        cases this.2

/-- Witness for C1 on the pool `[A, B, C]` with `B` dead. -/
theorem roundRobin_next_some_iff_alive_witness :
    (markAlive poolABC 1 false).length < 2 ^ 32 ∧
    ((NewRoundRobin (markAlive poolABC 1 false)).Next).1 = some srvC ∧
    (srvC ∈ markAlive poolABC 1 false ∧ srvC.Alive = true) :=
  ⟨by decide, by decide,
    (roundRobin_next_some_iff_alive (NewRoundRobin (markAlive poolABC 1 false))
      (by decide)).2.1 srvC (by decide)⟩

/-! ## Random scan -/

theorem Random.rnd_scan_some (servers : List Server) (index : Nat) :
    ∀ (fuel i p : Nat), Random.scan servers index fuel i = some p →
      isAliveAt servers p = true := by
  intro fuel
  induction fuel with
  | zero => intro i p h; simp [Random.scan] at h
  | succ fuel ih =>
    intro i p h
    unfold Random.scan at h
    simp only at h
    cases hs : servers[(index + i) % servers.length]? with
    | none => rw [hs] at h; simp at h
    | some s =>
      rw [hs] at h
      by_cases ha : s.Alive = true
      · simp only [ha, if_true, Option.some.injEq] at h
        subst h
        exact (isAliveAt_iff _ _).2 ⟨s, hs, ha⟩
      · simp only [ha] at h
        exact ih _ _ h

theorem Random.rnd_scan_none (servers : List Server) (index : Nat) (hpos : 0 < servers.length) :
    ∀ (fuel i : Nat), Random.scan servers index fuel i = none →
      ∀ t, t < fuel → isAliveAt servers ((index + (i + t)) % servers.length) = false := by
  intro fuel
  induction fuel with
  | zero => intro i _ t ht; omega
  | succ fuel ih =>
    intro i h t ht
    unfold Random.scan at h
    simp only at h
    have hlt : (index + i) % servers.length < servers.length := Nat.mod_lt _ hpos
    rw [List.getElem?_eq_getElem hlt] at h
    by_cases ha : (servers[(index + i) % servers.length]).Alive = true
    · simp [ha] at h
    · simp only [ha] at h
      cases t with
      | zero =>
        unfold isAliveAt
        rw [Nat.add_zero, List.getElem?_eq_getElem hlt]
        simpa using ha
      | succ t =>
        have := ih _ h t (by omega)
        rw [show i + (t + 1) = i + 1 + t by omega]
        exact this

theorem Random.rnd_pick_alive (g : Rng) (r : Random) (p : Nat) (h : (r.pick g).1 = some p) :
    isAliveAt r.servers p = true := by
  unfold Random.pick at h
  by_cases h0 : r.servers.length = 0
  · simp [h0] at h
  · simp only [h0, if_false] at h
    exact Random.rnd_scan_some _ _ _ _ _ h

theorem Random.rnd_pick_none (g : Rng) (r : Random) (h : (r.pick g).1 = none) (p : Nat) :
    isAliveAt r.servers p = false := by
  by_cases hp : p < r.servers.length
  · unfold Random.pick at h
    have h0 : r.servers.length ≠ 0 := by omega
    simp only [h0, if_false] at h
    obtain ⟨t, ht, hpt⟩ := cyclic_cover r.servers.length
      (g.intn r.seed r.servers.length) p hp
    have := Random.rnd_scan_none r.servers _ (by omega) _ _ h t ht
    rwa [Nat.zero_add, hpt] at this
  · unfold isAliveAt
    rw [List.getElem?_eq_none (by omega)]

theorem Random.rnd_next_eq_some_iff (g : Rng) (r : Random) (s : Server) :
    (r.Next g).1 = some s ↔ ∃ p, (r.pick g).1 = some p ∧ r.servers[p]? = some s := by
  unfold Random.Next
  cases h : (r.pick g).1 with
  | none => simp
  | some p => simp

/-- C2: for every pool (the empty one included), every liveness assignment,
every seed and every generator (so every start position it can draw), random
`Next` returns a backend iff some backend of the pool is alive; a returned
backend is a member of the pool and its flag is true; otherwise the result is
`nil`. -/
theorem random_next_some_iff_alive (g : Rng) (r : Random) :
    ((∃ s, (r.Next g).1 = some s) ↔ ∃ s ∈ r.servers, s.Alive = true) ∧
    (∀ s, (r.Next g).1 = some s → s ∈ r.servers ∧ s.Alive = true) ∧
    ((r.Next g).1 = none ↔ ∀ s ∈ r.servers, s.Alive = false) := by
  have sound : ∀ s, (r.Next g).1 = some s → s ∈ r.servers ∧ s.Alive = true := by
    intro s hs
    obtain ⟨p, hp, hget⟩ := (Random.rnd_next_eq_some_iff g r s).1 hs
    obtain ⟨s2, hs2, ha⟩ := (isAliveAt_iff _ _).1 (Random.rnd_pick_alive g r p hp)
    rw [hget] at hs2
    cases hs2
    exact ⟨List.getElem?_mem hget, ha⟩
  have complete : (∃ s ∈ r.servers, s.Alive = true) → ∃ s, (r.Next g).1 = some s := by
    intro hex
    obtain ⟨p, hp, ha⟩ := (exists_alive_iff _).1 hex
    cases hpick : (r.pick g).1 with
    | none =>
      have := Random.rnd_pick_none g r hpick p
      rw [ha] at this
      cases this
    | some q =>
      obtain ⟨s, hs, _⟩ := (isAliveAt_iff _ _).1 (Random.rnd_pick_alive g r q hpick)
      exact ⟨s, (Random.rnd_next_eq_some_iff g r s).2 ⟨q, hpick, hs⟩⟩
  refine ⟨⟨?_, complete⟩, sound, ?_⟩
  · rintro ⟨s, hs⟩
    exact ⟨s, sound s hs⟩
  · constructor
    · intro hnone s hmem
      cases hal : s.Alive with
      | false => rfl
      | true =>
        obtain ⟨s2, hs2⟩ := complete ⟨s, hmem, hal⟩
        rw [hnone] at hs2
        cases hs2
    · intro hall
      cases hnx : (r.Next g).1 with
      | none => rfl
      | some s =>
        have := sound s hnx
        rw [hall s this.1] at this
        cases this.2

/-! ## Round-robin runs -/

theorem RoundRobin.pick_servers (rr : RoundRobin) : (rr.pick).2.servers = rr.servers := by
  unfold RoundRobin.pick
  split_ifs <;> rfl

theorem RoundRobin.pick_index (rr : RoundRobin) (h0 : rr.servers.length ≠ 0) :
    (rr.pick).2.index = u32 (rr.index + 1) := by
  unfold RoundRobin.pick
  simp [h0]

theorem u32_succ_u32 (a b : Nat) : u32 (u32 a + b) = u32 (a + b) := by
  unfold u32
  exact Nat.mod_add_mod a (2 ^ 32) b

theorem RoundRobin.after_servers (k : Nat) :
    ∀ rr : RoundRobin, (RoundRobin.after k rr).servers = rr.servers := by
  induction k with
  | zero => intro rr; rfl
  | succ k ih => intro rr; rw [RoundRobin.after, ih, RoundRobin.pick_servers]

theorem RoundRobin.after_index (k : Nat) :
    ∀ rr : RoundRobin, rr.servers.length ≠ 0 →
      (RoundRobin.after (k + 1) rr).index = u32 (rr.index + (k + 1)) := by
  induction k with
  | zero =>
    intro rr h0
    simp [RoundRobin.after, RoundRobin.pick_index rr h0]
  | succ k ih =>
    intro rr h0
    rw [RoundRobin.after, ih _ (by rw [RoundRobin.pick_servers]; exact h0),
      RoundRobin.pick_index rr h0, u32_succ_u32]
    congr 1
    omega

theorem RoundRobin.run_eq_map_runPick (k : Nat) :
    ∀ rr : RoundRobin,
      RoundRobin.run k rr = (RoundRobin.runPick k rr).map (fun o => o.bind (fun i => rr.servers[i]?)) := by
  induction k with
  | zero => intro rr; rfl
  | succ k ih =>
    intro rr
    have hs : (rr.Next).2 = (rr.pick).2 := rfl
    rw [RoundRobin.run, RoundRobin.runPick, List.map_cons, hs, ih, RoundRobin.pick_servers]
    rfl

theorem RoundRobin.scan_succ_alive (servers : List Server) (n fuel index : Nat) (s : Server)
    (h : servers[index % n]? = some s) (ha : s.Alive = true) :
    RoundRobin.scan servers n (fuel + 1) index = some (index % n) := by
  simp [RoundRobin.scan, h, ha]

theorem RoundRobin.pick_all_alive (rr : RoundRobin)
    (hpos : 0 < rr.servers.length) (hlen : rr.servers.length < 2 ^ 32)
    (hall : ∀ s ∈ rr.servers, s.Alive = true) :
    (rr.pick).1 = some (u32 (rr.index + 1) % rr.servers.length) := by
  unfold RoundRobin.pick
  have h0 : rr.servers.length ≠ 0 := by omega
  simp only [h0, if_false]
  rw [u32_of_lt hlen]
  obtain ⟨m, hm⟩ : ∃ m, rr.servers.length = m + 1 := ⟨rr.servers.length - 1, by omega⟩
  have hlt : u32 (rr.index + 1) % rr.servers.length % rr.servers.length < rr.servers.length :=
    Nat.mod_lt _ hpos
  have key := RoundRobin.scan_succ_alive rr.servers rr.servers.length m
    (u32 (rr.index + 1) % rr.servers.length) _ (List.getElem?_eq_getElem hlt)
    (hall _ (List.getElem_mem hlt))
  rw [← hm, Nat.mod_mod] at key
  exact key

theorem RoundRobin.runPick_all_alive (k : Nat) :
    ∀ rr : RoundRobin, 0 < rr.servers.length → rr.servers.length < 2 ^ 32 →
      (∀ s ∈ rr.servers, s.Alive = true) →
      RoundRobin.runPick k rr
        = (List.range k).map (fun t => some (u32 (rr.index + 1 + t) % rr.servers.length)) := by
  induction k with
  | zero => intro rr _ _ _; rfl
  | succ k ih =>
    intro rr hpos hlen hall
    have hs := RoundRobin.pick_servers rr
    have hi := RoundRobin.pick_index rr (by omega)
    rw [RoundRobin.runPick, RoundRobin.pick_all_alive rr hpos hlen hall,
      ih _ (by rw [hs]; exact hpos) (by rw [hs]; exact hlen) (by rw [hs]; exact hall),
      List.range_succ_eq_map, List.map_cons, List.map_map, hs, hi]
    congr 1
    apply List.map_congr_left
    intro t _
    simp only [Function.comp, Nat.succ_eq_add_one]
    rw [show u32 (rr.index + 1) + 1 + t = u32 (rr.index + 1) + (1 + t) by omega, u32_succ_u32]
    congr 3
    omega

/-! ## Counting residues in a window -/

theorem ceil_div_eq (K N : Nat) (hN : 0 < N) :
    (K + N - 1) / N = K / N + if K % N = 0 then 0 else 1 := by
  have h1 : K + N - 1 = K + (N - 1) := by omega
  have h2 : (N - 1) / N = 0 := Nat.div_eq_of_lt (by omega)
  have h3 : (N - 1) % N = N - 1 := Nat.mod_eq_of_lt (by omega)
  have hs : K % N < N := Nat.mod_lt _ hN
  rw [h1, Nat.add_div hN, h2, h3]
  split_ifs <;> omega

theorem count_mod_formula (N j b : Nat) (hN : 0 < N) (hj : j < N) :
    Nat.count (fun t => t % N = j) b = b / N + if j < b % N then 1 else 0 := by
  have := Nat.count_modEq_card b hN j
  rw [Nat.mod_eq_of_lt hj] at this
  rw [← this]
  have hp : (fun t => t % N = j) = (fun t => t ≡ j [MOD N]) := by
    funext t
    simp [Nat.ModEq, Nat.mod_eq_of_lt hj]
  simp only [hp]

theorem count_window (N j a K : Nat) (hN : 0 < N) (hj : j < N) :
    K / N ≤ Nat.count (fun t => (a + t) % N = j) K ∧
    Nat.count (fun t => (a + t) % N = j) K ≤ (K + N - 1) / N := by
  have hadd := Nat.count_add (fun t => t % N = j) a K
  rw [count_mod_formula N j _ hN hj, count_mod_formula N j _ hN hj] at hadd
  rw [ceil_div_eq K N hN]
  have hr : a % N < N := Nat.mod_lt _ hN
  have hs : K % N < N := Nat.mod_lt _ hN
  rw [Nat.add_div hN, Nat.add_mod] at hadd
  by_cases hc : a % N + K % N < N
  · rw [Nat.mod_eq_of_lt hc] at hadd
    split_ifs at hadd ⊢ <;> omega
  · have hm : (a % N + K % N) % N = a % N + K % N - N := by
      rw [Nat.mod_eq_sub_mod (by omega)]
      exact Nat.mod_eq_of_lt (by omega)
    rw [hm] at hadd
    split_ifs at hadd ⊢ <;> omega

theorem count_some_map_range (f : Nat → Nat) (j K : Nat) :
    List.count (some j) ((List.range K).map (fun t => some (f t)))
      = Nat.count (fun t => f t = j) K := by
  rw [Nat.count, List.count, List.countP_map]
  apply List.countP_congr
  intro t _
  simp

/-- C3 (amended): on a pool of `N ≥ 1` backends (`N < 2 ^ 32`) that all stay
alive, in a run of `K` consecutive calls of round-robin `Next` during which the
32-bit counter does not wrap around (or with `N` dividing `2 ^ 32`), the backend
at each position is returned at least `⌊K/N⌋` and at most `⌈K/N⌉` times (the
servers returned by the run are those at the positions picked). -/
theorem roundRobin_fair_without_wrap (rr : RoundRobin) (K j : Nat)
    (hpos : 1 ≤ rr.servers.length) (hlen : rr.servers.length < 2 ^ 32)
    (hall : ∀ s ∈ rr.servers, s.Alive = true)
    (hwrap : rr.index + K < 2 ^ 32 ∨ rr.servers.length ∣ 2 ^ 32)
    (hj : j < rr.servers.length) :
    rr.run K = (rr.runPick K).map (fun o => o.bind (fun i => rr.servers[i]?)) ∧
    K / rr.servers.length ≤ List.count (some j) (rr.runPick K) ∧
    List.count (some j) (rr.runPick K)
      ≤ (K + rr.servers.length - 1) / rr.servers.length := by
  refine ⟨RoundRobin.run_eq_map_runPick K rr, ?_⟩
  have hrun : RoundRobin.runPick K rr
      = (List.range K).map (fun t => some ((rr.index + 1 + t) % rr.servers.length)) := by
    rw [RoundRobin.runPick_all_alive K rr hpos hlen hall]
    apply List.map_congr_left
    intro t ht
    have htK : t < K := List.mem_range.1 ht
    rcases hwrap with h | h
    · rw [u32_of_lt (by omega)]
    · unfold u32
      rw [Nat.mod_mod_of_dvd _ h]
  rw [hrun, count_some_map_range]
  exact count_window rr.servers.length j (rr.index + 1) K hpos hj

/-- Witness for C3 (amended): nine calls on the fresh all-alive pool `[A, B, C]`. -/
theorem roundRobin_fair_without_wrap_witness :
    3 ≤ List.count (some 1) ((NewRoundRobin poolABC).runPick 9) ∧
    List.count (some 1) ((NewRoundRobin poolABC).runPick 9) ≤ 3 :=
  (roundRobin_fair_without_wrap (NewRoundRobin poolABC) 9 1 (by decide) (by decide)
    (by decide) (Or.inl (by decide)) (by decide)).2

/-- C3 as stated fails when the run crosses the wrap of the `uint32` counter:
after `2 ^ 32 - 2` calls on the all-alive pool `[A, B, C]` the next two calls
both return `A`, more than `⌈2/3⌉ = 1` times. -/
theorem roundRobin_fair_counterexample :
    (∀ s ∈ poolABC, s.Alive = true) ∧
    RoundRobin.run 2 (RoundRobin.after (2 ^ 32 - 2) (NewRoundRobin poolABC))
      = [some srvA, some srvA] ∧
    ¬ (List.count (some 0) (RoundRobin.runPick 2
        (RoundRobin.after (2 ^ 32 - 2) (NewRoundRobin poolABC))) ≤ (2 + 3 - 1) / 3) := by
  have hst : RoundRobin.after (2 ^ 32 - 2) (NewRoundRobin poolABC)
      = { servers := poolABC, index := 2 ^ 32 - 2 } := by
    have h1 := RoundRobin.after_servers (2 ^ 32 - 2) (NewRoundRobin poolABC)
    have h2 := RoundRobin.after_index (2 ^ 32 - 3) (NewRoundRobin poolABC) (by decide)
    have h3 : (2 : Nat) ^ 32 - 3 + 1 = 2 ^ 32 - 2 := by norm_num
    rw [h3] at h2
    cases hrr : RoundRobin.after (2 ^ 32 - 2) (NewRoundRobin poolABC) with
    | mk sv ix =>
      rw [hrr] at h1 h2
      simp only at h1 h2
      rw [h1, h2]
      have : u32 ((NewRoundRobin poolABC).index + (2 ^ 32 - 2)) = 2 ^ 32 - 2 := by decide
      rw [this]
      rfl
  rw [hst]
  decide

/-! ## Scenario S2 -/

/-- C4 (amended): a fresh round-robin balancer over `[A, B, C]` with `B` dead
answers six consecutive calls with `C, C, A, C, C, A`: only `A` or `C`, with `A`
exactly 2 times and `C` exactly 4 times. -/
theorem scenario_S2_counts :
    RoundRobin.run 6 s2Balancer
      = [some srvC, some srvC, some srvA, some srvC, some srvC, some srvA] ∧
    (∀ o ∈ RoundRobin.run 6 s2Balancer, o = some srvA ∨ o = some srvC) ∧
    List.count (some srvA) (RoundRobin.run 6 s2Balancer) = 2 ∧
    List.count (some srvC) (RoundRobin.run 6 s2Balancer) = 4 := by
  decide

/-- C4 as stated fails: the six calls do not return `A` exactly 3 times and `C`
exactly 3 times. -/
theorem scenario_S2_counterexample :
    ¬ ((∀ o ∈ RoundRobin.run 6 s2Balancer, o = some srvA ∨ o = some srvC) ∧
       List.count (some srvA) (RoundRobin.run 6 s2Balancer) = 3 ∧
       List.count (some srvC) (RoundRobin.run 6 s2Balancer) = 3) := by
  decide

/-! ## Host/port splitting -/

theorem indexByte_getElem (c : Char) :
    ∀ (s : List Char) (i : Nat), indexByte s c = some i → s[i]? = some c := by
  intro s
  induction s with
  | nil => intro i h; simp [indexByte] at h
  | cons x xs ih =>
    intro i h
    unfold indexByte at h
    by_cases hx : x = c
    · simp only [hx, if_true, Option.some.injEq] at h
      subst h
      simp [hx]
    · simp only [hx, if_false] at h
      cases hk : indexByte xs c with
      | none => rw [hk] at h; simp at h
      | some k =>
        rw [hk] at h
        have h2 : k + 1 = i := by simpa using h
        subst h2
        simpa using ih k hk

theorem lastIndexByte_getElem (c : Char) :
    ∀ (s : List Char) (i : Nat), lastIndexByte s c = some i → s[i]? = some c := by
  intro s
  induction s with
  | nil => intro i h; simp [lastIndexByte] at h
  | cons x xs ih =>
    intro i h
    unfold lastIndexByte at h
    cases hl : lastIndexByte xs c with
    | some k =>
      rw [hl] at h
      simp only [Option.some.injEq] at h
      subst h
      simpa using ih k hl
    | none =>
      rw [hl] at h
      by_cases hx : x = c
      · simp only [hx, if_true, Option.some.injEq] at h
        subst h
        simp [hx]
      · simp [hx] at h

theorem split_at_getElem (s : List Char) (i : Nat) (c : Char) (h : s[i]? = some c) :
    s = s.take i ++ c :: s.drop (i + 1) := by
  obtain ⟨hi, hc⟩ := List.getElem?_eq_some.1 h
  have h1 : s.drop i = c :: s.drop (i + 1) := by
    rw [List.drop_eq_getElem_cons hi, hc]
  calc s = s.take i ++ s.drop i := (List.take_append_drop i s).symm
    _ = s.take i ++ c :: s.drop (i + 1) := by rw [h1]

theorem splitFinish_err (s : List Char) (i : Nat) (host : List Char) (j k : Nat)
    (h : (splitFinish s i host j k).err ≠ none) : (splitFinish s i host j k).host = "" := by
  unfold splitFinish at h ⊢
  split_ifs at h ⊢ <;> simp [addrErr] at h ⊢

theorem splitFinish_ok (s : List Char) (i : Nat) (host : List Char) (j k : Nat)
    (h : (splitFinish s i host j k).err = none) :
    (splitFinish s i host j k).host = String.mk host ∧
    (splitFinish s i host j k).port = String.mk (s.drop (i + 1)) := by
  unfold splitFinish at h ⊢
  split_ifs at h ⊢ <;> simp [addrErr] at h ⊢

theorem splitHostPortChars_err (s : List Char) (h : (splitHostPortChars s).err ≠ none) :
    (splitHostPortChars s).host = "" := by
  unfold splitHostPortChars at h ⊢
  cases hL : lastIndexByte s ':' with
  | none => rfl
  | some i =>
    simp only [hL] at h ⊢
    by_cases hb : s.head? = some '['
    · simp only [hb, if_true] at h ⊢
      cases hE : indexByte s ']' with
      | none => rfl
      | some e =>
        simp only [hE] at h ⊢
        split_ifs at h ⊢
        · rfl
        · exact splitFinish_err _ _ _ _ _ h
        · rfl
        · rfl
    · simp only [hb, if_false] at h ⊢
      split_ifs at h ⊢
      · rfl
      · exact splitFinish_err _ _ _ _ _ h

theorem splitHostPortChars_ok (s : List Char) (h : (splitHostPortChars s).err = none) :
    s = (splitHostPortChars s).host.data ++ ':' :: (splitHostPortChars s).port.data ∨
    s = '[' :: (splitHostPortChars s).host.data
          ++ ']' :: ':' :: (splitHostPortChars s).port.data := by
  unfold splitHostPortChars at h ⊢
  cases hL : lastIndexByte s ':' with
  | none => simp [hL, addrErr] at h
  | some i =>
    have hcolon := lastIndexByte_getElem ':' s i hL
    simp only [hL] at h ⊢
    by_cases hb : s.head? = some '['
    · simp only [hb, if_true] at h ⊢
      cases hE : indexByte s ']' with
      | none => simp [hE, addrErr] at h
      | some e =>
        have hclose := indexByte_getElem ']' s e hE
        simp only [hE] at h ⊢
        split_ifs at h ⊢ with h1 h2 h3
        · simp [addrErr] at h
        · obtain ⟨hh, hp⟩ := splitFinish_ok _ _ _ _ _ h
          right
          rw [hh, hp]
          have hs1 := split_at_getElem s e ']' hclose
          have hd : s.drop (e + 1) = ':' :: s.drop (i + 1) := by
            obtain ⟨hil, hic⟩ := List.getElem?_eq_some.1 hcolon
            rw [h2, List.drop_eq_getElem_cons hil, hic]
          have ht : s.take e = '[' :: (s.take e).drop 1 := by
            cases s with
            | nil => simp at hb
            | cons x xs =>
              simp only [List.head?_cons, Option.some.injEq] at hb
              subst hb
              cases e with
              | zero => simp at hclose
              | succ e => simp
          calc s = s.take e ++ ']' :: s.drop (e + 1) := hs1
            _ = ('[' :: (s.take e).drop 1) ++ ']' :: ':' :: s.drop (i + 1) := by
                rw [hd, ← ht]
            _ = _ := by simp
        · simp [addrErr] at h
        · simp [addrErr] at h
    · simp only [hb, if_false] at h ⊢
      split_ifs at h ⊢
      · simp [addrErr] at h
      · obtain ⟨hh, hp⟩ := splitFinish_ok _ _ _ _ _ h
        left
        rw [hh, hp]
        exact split_at_getElem s i ':' hcolon

theorem SplitHostPort_err (a : String) (h : (SplitHostPort a).err ≠ none) :
    (SplitHostPort a).host = "" :=
  splitHostPortChars_err a.data h

theorem SplitHostPort_ok (a : String) (h : (SplitHostPort a).err = none) :
    a = (SplitHostPort a).host ++ ":" ++ (SplitHostPort a).port ∨
    a = "[" ++ (SplitHostPort a).host ++ "]:" ++ (SplitHostPort a).port := by
  rcases splitHostPortChars_ok a.data h with h1 | h1
  · left
    apply String.ext
    simp only [String.data_append]
    exact h1.trans (by simp [SplitHostPort])
  · right
    apply String.ext
    simp only [String.data_append]
    exact h1.trans (by simp [SplitHostPort])

/-! ## Rate-limiter gate -/

theorem gate_lookupKey (rrl : RedisRateLimiter) (ds : Datastore) (r : Request) :
    (rrl.RateLimitMiddleware ds r).lookupKey = (SplitHostPort r.RemoteAddr).host := by
  unfold RedisRateLimiter.RateLimitMiddleware
  simp only
  split
  · rfl
  · split_ifs <;> rfl

theorem gate_allowCalls (rrl : RedisRateLimiter) (ds : Datastore) (r : Request) :
    (rrl.RateLimitMiddleware ds r).allowCalls
      = [((SplitHostPort r.RemoteAddr).host,
          resolvedLimit rrl (SplitHostPort r.RemoteAddr).host)] := by
  unfold RedisRateLimiter.RateLimitMiddleware resolvedLimit
  simp only
  split
  · rfl
  · split_ifs <;> rfl

/-- C5 (amended): the key the gate uses for the override lookup and for the
datastore `Allow` call is the host returned by `net.SplitHostPort`: when the
split succeeds it is the remote address with the port (and IPv6 brackets)
stripped; when the split fails it is the empty string. -/
theorem gate_identifier (rrl : RedisRateLimiter) (ds : Datastore) (r : Request) :
    (rrl.RateLimitMiddleware ds r).lookupKey = (SplitHostPort r.RemoteAddr).host ∧
    (rrl.RateLimitMiddleware ds r).allowCalls.map Prod.fst = [(SplitHostPort r.RemoteAddr).host] ∧
    ((SplitHostPort r.RemoteAddr).err = none →
      r.RemoteAddr = (SplitHostPort r.RemoteAddr).host ++ ":" ++ (SplitHostPort r.RemoteAddr).port ∨
      r.RemoteAddr
        = "[" ++ (SplitHostPort r.RemoteAddr).host ++ "]:" ++ (SplitHostPort r.RemoteAddr).port) ∧
    ((SplitHostPort r.RemoteAddr).err ≠ none →
      (rrl.RateLimitMiddleware ds r).lookupKey = "" ∧
      (rrl.RateLimitMiddleware ds r).allowCalls.map Prod.fst = [""]) := by
  refine ⟨gate_lookupKey rrl ds r, by simp [gate_allowCalls], SplitHostPort_ok _, ?_⟩
  intro h
  have := SplitHostPort_err _ h
  simp [gate_lookupKey, gate_allowCalls, this]

/-- Witness for C5 (amended): a TCP peer address splits, a bare address does not. -/
theorem gate_identifier_witness :
    (SplitHostPort reqTcp.RemoteAddr).err = none ∧
    (reqTcp.RemoteAddr = "10.0.0.1" ++ ":" ++ "51000") ∧
    (rlDefault.RateLimitMiddleware dsAllow reqTcp).lookupKey = "10.0.0.1" ∧
    (SplitHostPort reqNoPort.RemoteAddr).err ≠ none ∧
    ((rlDefault.RateLimitMiddleware dsAllow reqNoPort).lookupKey = "" ∧
      (rlDefault.RateLimitMiddleware dsAllow reqNoPort).allowCalls.map Prod.fst = [""]) :=
  ⟨by decide, by decide, by decide, by decide,
    (gate_identifier rlDefault dsAllow reqNoPort).2.2.2 (by decide)⟩

/-- C5 as stated fails: for the remote address `10.0.0.1` (no port) the split
fails and the gate looks up and calls `Allow` with the empty string, not with
the raw remote address. -/
theorem gate_identifier_counterexample :
    (SplitHostPort reqNoPort.RemoteAddr).err ≠ none ∧
    (rlDefault.RateLimitMiddleware dsAllow reqNoPort).lookupKey ≠ reqNoPort.RemoteAddr ∧
    (rlDefault.RateLimitMiddleware dsAllow reqNoPort).allowCalls.map Prod.fst
      ≠ [reqNoPort.RemoteAddr] := by
  decide

/-- C6: the gate makes one `Allow` call; when it returns an error the next
handler is not invoked, the key's bucket is reset and the response is 500
"Internal Server Error"; when it reports `Allowed = 0` the next handler is not
invoked and the response is 429 "Rate limit exceeded"; when it reports
`Allowed ≥ 1` the next handler is invoked exactly once and the gate writes no
response. -/
theorem gate_fail_closed (rrl : RedisRateLimiter) (ds : Datastore) (r : Request) :
    ∃ key limit, (rrl.RateLimitMiddleware ds r).allowCalls = [(key, limit)] ∧
      (∀ e, ds key limit = .error e →
        (rrl.RateLimitMiddleware ds r).nextCalls = 0 ∧
        (rrl.RateLimitMiddleware ds r).resetCalls = [key] ∧
        (rrl.RateLimitMiddleware ds r).response
          = some (.jsonError 500 "Internal Server Error")) ∧
      (∀ res, ds key limit = .ok res → res.Allowed = 0 →
        (rrl.RateLimitMiddleware ds r).nextCalls = 0 ∧
        (rrl.RateLimitMiddleware ds r).response
          = some (.jsonError 429 "Rate limit exceeded")) ∧
      (∀ res, ds key limit = .ok res → 1 ≤ res.Allowed →
        (rrl.RateLimitMiddleware ds r).nextCalls = 1 ∧
        (rrl.RateLimitMiddleware ds r).response = none) := by
  refine ⟨_, _, gate_allowCalls rrl ds r, ?_, ?_, ?_⟩
  · intro e he
    unfold RedisRateLimiter.RateLimitMiddleware
    unfold resolvedLimit at he
    simp [he]
  · intro res he h0
    unfold RedisRateLimiter.RateLimitMiddleware
    unfold resolvedLimit at he
    simp [he, h0]
  · intro res he h1
    have hne : res.Allowed ≠ 0 := by omega
    unfold RedisRateLimiter.RateLimitMiddleware
    unfold resolvedLimit at he
    simp [he, hne]

/-- Witness for C6: a failing, a denying and an admitting datastore. -/
theorem gate_fail_closed_witness :
    ((rlDefault.RateLimitMiddleware dsDown reqTcp).nextCalls = 0 ∧
      (rlDefault.RateLimitMiddleware dsDown reqTcp).resetCalls = ["10.0.0.1"] ∧
      (rlDefault.RateLimitMiddleware dsDown reqTcp).response
        = some (.jsonError 500 "Internal Server Error")) ∧
    ((rlDefault.RateLimitMiddleware dsDeny reqTcp).nextCalls = 0 ∧
      (rlDefault.RateLimitMiddleware dsDeny reqTcp).response
        = some (.jsonError 429 "Rate limit exceeded")) ∧
    ((rlDefault.RateLimitMiddleware dsAllow reqTcp).nextCalls = 1 ∧
      (rlDefault.RateLimitMiddleware dsAllow reqTcp).response = none) := by
  refine ⟨?_, ?_, ?_⟩
  · obtain ⟨key, limit, hk, h1, _, _⟩ := gate_fail_closed rlDefault dsDown reqTcp
    have hkey : key = "10.0.0.1" := by
      have h0 : (rlDefault.RateLimitMiddleware dsDown reqTcp).allowCalls.map Prod.fst
          = ["10.0.0.1"] := by decide
      rw [hk] at h0
      simpa using h0
    subst hkey
    exact h1 "connection refused" rfl
  · obtain ⟨key, limit, _, _, h2, _⟩ := gate_fail_closed rlDefault dsDeny reqTcp
    exact h2 _ rfl (by decide)
  · obtain ⟨key, limit, _, _, _, h3⟩ := gate_fail_closed rlDefault dsAllow reqTcp
    exact h3 _ rfl (by decide)

/-! ## Overrides and the control plane -/

/-- C7: for every override table, user `U` and `rate > 0`, `burst > 0`,
`SetUserLimit(U, rate, burst)` succeeds and afterwards the gate calls `Allow`
for identifier `U` with `Limit{rate, 1 s, burst}`; for every other identifier
the limit is the one used before the call; an identifier without an override
entry gets `Limit{defaultRate, 1 s, defaultBurst}`. -/
theorem setUserLimit_resolution (rrl : RedisRateLimiter) (U : String) (rate burst : Int)
    (hr : 0 < rate) (hb : 0 < burst) :
    (rrl.SetUserLimit U rate burst).1 = none ∧
    (∀ (ds : Datastore) (r : Request), (SplitHostPort r.RemoteAddr).host = U →
      ((rrl.SetUserLimit U rate burst).2.RateLimitMiddleware ds r).allowCalls
        = [(U, { Rate := rate, Period := Second, Burst := burst })]) ∧
    (∀ (ds : Datastore) (r : Request), (SplitHostPort r.RemoteAddr).host ≠ U →
      ((rrl.SetUserLimit U rate burst).2.RateLimitMiddleware ds r).allowCalls
        = (rrl.RateLimitMiddleware ds r).allowCalls) ∧
    (∀ (ds : Datastore) (r : Request),
      rrl.userLimits (SplitHostPort r.RemoteAddr).host = none →
      (rrl.RateLimitMiddleware ds r).allowCalls
        = [((SplitHostPort r.RemoteAddr).host,
            { Rate := rrl.defaultRate, Period := Second, Burst := rrl.defaultBurst })]) := by
  have hcond : ¬ (rate ≤ 0 ∨ burst ≤ 0) := by omega
  have hset : rrl.SetUserLimit U rate burst
      = (none, { rrl with
          userLimits := fun k =>
            if k = U then some { Rate := rate, Period := Second, Burst := burst }
            else rrl.userLimits k }) := by
    unfold RedisRateLimiter.SetUserLimit
    rw [if_neg hcond]
  refine ⟨by rw [hset], ?_, ?_, ?_⟩
  · intro ds r hU
    rw [gate_allowCalls, hset, hU]
    simp [resolvedLimit]
  · intro ds r hU
    rw [gate_allowCalls, gate_allowCalls, hset]
    simp [resolvedLimit, hU]
  · intro ds r hnone
    rw [gate_allowCalls]
    simp [resolvedLimit, hnone]

/-- Witness for C7: overriding `10.0.0.1` with `(10, 10)` on the default limiter. -/
theorem setUserLimit_resolution_witness :
    (rlDefault.SetUserLimit "10.0.0.1" 10 10).1 = none ∧
    ((rlDefault.SetUserLimit "10.0.0.1" 10 10).2.RateLimitMiddleware dsAllow reqTcp).allowCalls
      = [("10.0.0.1", { Rate := 10, Period := Second, Burst := 10 })] :=
  ⟨(setUserLimit_resolution rlDefault "10.0.0.1" 10 10 (by decide) (by decide)).1,
    (setUserLimit_resolution rlDefault "10.0.0.1" 10 10 (by decide) (by decide)).2.1
      dsAllow reqTcp (by decide)⟩

/-- C8: a POST to `/edit` whose body decodes with a non-empty `userIP` and with
`newRate ≤ 0` or `newBurst ≤ 0` is answered 400 "newRate and newBurst must be
positive integers" and leaves the rate limiter (its override table) as it was;
`SetUserLimit` called directly with such values returns an error and leaves the
rate limiter as it was. -/
theorem edit_rejects_nonpositive (rl : RedisRateLimiter) (request : EditRequest)
    (userID : String) (hip : request.UserIP ≠ "")
    (hbad : request.NewRate ≤ 0 ∨ request.NewBurst ≤ 0) :
    HandleEdit rl "POST" (.ok request)
      = (.jsonError 400 "newRate and newBurst must be positive integers", rl) ∧
    (rl.SetUserLimit userID request.NewRate request.NewBurst).1 ≠ none ∧
    (rl.SetUserLimit userID request.NewRate request.NewBurst).2 = rl := by
  refine ⟨?_, ?_, ?_⟩
  · unfold HandleEdit
    simp [hip, hbad]
  · unfold RedisRateLimiter.SetUserLimit
    rw [if_pos hbad]
    simp
  · unfold RedisRateLimiter.SetUserLimit
    rw [if_pos hbad]

/-- Witness for C8: `newRate = 0` for user `10.0.0.1`. -/
theorem edit_rejects_nonpositive_witness :
    HandleEdit rlDefault "POST" (.ok { UserIP := "10.0.0.1", NewRate := 0, NewBurst := 5 })
      = (.jsonError 400 "newRate and newBurst must be positive integers", rlDefault) ∧
    (rlDefault.SetUserLimit "10.0.0.1" 0 5).1 ≠ none ∧
    (rlDefault.SetUserLimit "10.0.0.1" 0 5).2 = rlDefault :=
  edit_rejects_nonpositive rlDefault { UserIP := "10.0.0.1", NewRate := 0, NewBurst := 5 }
    "10.0.0.1" (by decide) (Or.inl (by decide))

/-! ## Configuration validation -/

/-- C9 (amended): `validateConfig` returns an error for every configuration
whose backends list is empty, whose `rate_limiting.capacity ≤ 0`, whose
`rate_limiting.rate_per_second ≤ 0`, whose `storage.redis.host` is empty, or
whose `storage.redis.port` is `0`. -/
theorem validateConfig_rejects (c : config.Config)
    (h : c.Backends = [] ∨ c.Rate_limiting.Capacity ≤ 0 ∨ c.Rate_limiting.Rate_per_second ≤ 0 ∨
      c.Storage.Redis.Host = "" ∨ c.Storage.Redis.Port = 0) :
    ∃ msg, config.validateConfig c = some msg := by
  unfold config.validateConfig
  by_cases h1 : c.Rate_limiting.Rate_per_second ≤ 0
  · exact ⟨_, if_pos h1⟩
  rw [if_neg h1]
  by_cases h2 : c.Rate_limiting.Capacity ≤ 0
  · exact ⟨_, if_pos h2⟩
  rw [if_neg h2]
  by_cases h3 : c.Storage.Redis.Host = ""
  · exact ⟨_, if_pos h3⟩
  rw [if_neg h3]
  by_cases h4 : c.Storage.Redis.Port = 0
  · exact ⟨_, if_pos h4⟩
  rw [if_neg h4]
  by_cases h5 : c.HealthChecker.Interval = 0
  · exact ⟨_, if_pos h5⟩
  rw [if_neg h5]
  by_cases h6 : c.HealthChecker.Timeout = 0
  · exact ⟨_, if_pos h6⟩
  rw [if_neg h6]
  by_cases h7 : c.Host = ""
  · exact ⟨_, if_pos h7⟩
  rw [if_neg h7]
  by_cases h8 : c.Port = ""
  · exact ⟨_, if_pos h8⟩
  rw [if_neg h8]
  by_cases h9 : c.Backends.length = 0
  · exact ⟨_, if_pos h9⟩
  exfalso
  rcases h with h | h | h | h | h
  · exact h9 (by rw [h]; rfl)
  · exact h2 h
  · exact h1 h
  · exact h3 h
  · exact h4 h

/-- Witness for C9 (amended): `cfgGood` with the redis port left at `0`. -/
theorem validateConfig_rejects_witness :
    ∃ msg, config.validateConfig
      { cfgGood with Storage := { Redis := { Host := "redis", Port := 0, Password := "" } } }
        = some msg :=
  validateConfig_rejects _ (Or.inr (Or.inr (Or.inr (Or.inr (by decide)))))

/-- C9 as stated fails: a configuration whose redis port is `-1` (not `> 0`)
and is otherwise valid passes `validateConfig`. -/
theorem validateConfig_counterexample :
    ¬ (0 < cfgNegativePort.Storage.Redis.Port) ∧
    config.validateConfig cfgNegativePort = none := by
  decide

/-! ## Health prober -/

/-- C10 (what the code does): every probe is a GET to the backend URL followed
by `/healthcheck`, and the HTTP client timeout is the configured `interval`;
for `interval = 5 s`, `timeout = 1 s` the probe runs under 5 s, not under the
configured timeout. -/
theorem check_timeout_is_interval :
    (∀ (interval timeout : Int) (backends : List Server) (backend : Server),
      ((healthcheck.NewHealthChecker interval timeout backends).probe backend).method = "GET" ∧
      ((healthcheck.NewHealthChecker interval timeout backends).probe backend).url
        = backend.URL ++ "/healthcheck" ∧
      ((healthcheck.NewHealthChecker interval timeout backends).probe backend).clientTimeout
        = interval) ∧
    ((healthcheck.NewHealthChecker (5 * Second) Second poolABC).probe srvA).clientTimeout
      = 5 * Second ∧
    ((healthcheck.NewHealthChecker (5 * Second) Second poolABC).probe srvA).clientTimeout
      ≠ (healthcheck.NewHealthChecker (5 * Second) Second poolABC).timeout := by
  refine ⟨fun _ _ _ _ => ⟨rfl, rfl, rfl⟩, by decide, by decide⟩

/-! ## One call of round-robin `Next` -/

theorem RoundRobin.scan_eq_firstAlive (servers : List Server) (n : Nat)
    (hn : n ≤ servers.length) (h32 : n < 2 ^ 32) :
    ∀ (fuel index : Nat), index < n →
      RoundRobin.scan servers n fuel index
        = firstAliveAmong servers ((List.range fuel).map (fun t => (index + t) % n)) := by
  intro fuel
  induction fuel with
  | zero => intro index _; rfl
  | succ fuel ih =>
    intro index hi
    have hmod : index % n = index := Nat.mod_eq_of_lt hi
    have hlt : index % n < servers.length := by omega
    have hnext : u32 (index + 1) % n < n := Nat.mod_lt _ (by omega)
    have hu : u32 (index + 1) = index + 1 := u32_of_lt (by omega)
    have htail : (List.range fuel).map (fun t => (u32 (index + 1) % n + t) % n)
        = (List.range fuel).map ((fun t => (index + t) % n) ∘ Nat.succ) := by
      apply List.map_congr_left
      intro t _
      simp only [Function.comp, Nat.succ_eq_add_one]
      rw [hu, Nat.mod_add_mod]
      congr 1
      omega
    have hal : isAliveAt servers (index % n) = (servers[index % n]).Alive := by
      unfold isAliveAt
      rw [List.getElem?_eq_getElem hlt]
    rw [RoundRobin.scan, List.getElem?_eq_getElem hlt, List.range_succ_eq_map, List.map_cons,
      List.map_map, firstAliveAmong, List.find?_cons]
    simp only [Nat.add_zero]
    rw [hal]
    cases ha : (servers[index % n]).Alive with
    | true => simp
    | false =>
      simp only [Bool.false_eq_true, if_false]
      rw [ih _ hnext, htail]
      rfl

theorem scanOrder_mod (n c : Nat) : scanOrder n (c % n) = scanOrder n c := by
  unfold scanOrder
  apply List.map_congr_left
  intro t _
  exact Nat.mod_add_mod c n t

theorem RoundRobin.pick_eq_firstAlive (rr : RoundRobin)
    (hpos : 0 < rr.servers.length) (hlen : rr.servers.length < 2 ^ 32) :
    (rr.pick).1
      = firstAliveAmong rr.servers (scanOrder rr.servers.length (u32 (rr.index + 1))) := by
  have h0 : rr.servers.length ≠ 0 := by omega
  rw [← scanOrder_mod]
  unfold RoundRobin.pick
  simp only [h0, if_false]
  rw [u32_of_lt hlen]
  exact RoundRobin.scan_eq_firstAlive rr.servers rr.servers.length (le_refl _) hlen _ _
    (Nat.mod_lt _ hpos)

theorem scanOrder_u32 (n i : Nat) (h : i + 1 < 2 ^ 32 ∨ n ∣ 2 ^ 32) :
    scanOrder n (u32 (i + 1)) = scanOrder n (i + 1) := by
  rcases h with h | h
  · rw [u32_of_lt h]
  · rw [← scanOrder_mod n (u32 (i + 1)), ← scanOrder_mod n (i + 1)]
    unfold u32
    rw [Nat.mod_mod_of_dvd _ h]

/-- C11 (amended): on a non-empty pool of `N < 2 ^ 32` backends, for every
liveness assignment and every counter value `i`, one call of round-robin `Next`
leaves the pool as it is and sets the counter to `c = (i + 1) mod 2 ^ 32`,
whatever the number of dead backends skipped, and returns the first alive
backend among the positions `c mod N, (c+1) mod N, ..., (c+N-1) mod N` taken in
that order, `nil` when all are dead; these positions are `(i+1) mod N, ...,
(i+N) mod N` whenever `i + 1 < 2 ^ 32` or `N` divides `2 ^ 32`. -/
theorem roundRobin_next_first_alive (rr : RoundRobin)
    (hpos : 0 < rr.servers.length) (hlen : rr.servers.length < 2 ^ 32) :
    (rr.Next).2 = { servers := rr.servers, index := u32 (rr.index + 1) } ∧
    (rr.Next).1
      = (firstAliveAmong rr.servers (scanOrder rr.servers.length (u32 (rr.index + 1)))).bind
          (fun p => rr.servers[p]?) ∧
    ((∀ s ∈ rr.servers, s.Alive = false) → (rr.Next).1 = none) ∧
    (rr.index + 1 < 2 ^ 32 ∨ rr.servers.length ∣ 2 ^ 32 →
      (rr.Next).1
        = (firstAliveAmong rr.servers (scanOrder rr.servers.length (rr.index + 1))).bind
            (fun p => rr.servers[p]?)) := by
  have h0 : rr.servers.length ≠ 0 := by omega
  have hfirst : (rr.Next).1
      = (firstAliveAmong rr.servers (scanOrder rr.servers.length (u32 (rr.index + 1)))).bind
          (fun p => rr.servers[p]?) := by
    rw [← RoundRobin.pick_eq_firstAlive rr hpos hlen]
    rfl
  refine ⟨?_, hfirst, ?_, ?_⟩
  · have hs : (rr.Next).2 = (rr.pick).2 := rfl
    rw [hs]
    unfold RoundRobin.pick
    simp [h0]
  · intro hdead
    cases hnx : (rr.Next).1 with
    | none => rfl
    | some s =>
      obtain ⟨p, hp, hget⟩ := (RoundRobin.next_eq_some_iff rr s).1 hnx
      obtain ⟨s2, hs2, ha⟩ := (isAliveAt_iff _ _).1 (RoundRobin.pick_alive rr p hp)
      rw [hdead s2 (List.getElem?_mem hs2)] at ha
      cases ha
  · intro hw
    rw [hfirst, scanOrder_u32 _ _ hw]

/-- Witness for C11 (amended): the first call on the fresh pool `[A, B, C]`
with `B` dead skips `B` and returns `C`, and the counter becomes `1`. -/
theorem roundRobin_next_first_alive_witness :
    (s2Balancer.Next).2 = { servers := s2Balancer.servers, index := 1 } ∧
    (s2Balancer.Next).1 = some srvC ∧
    scanOrder 3 1 = [1, 2, 0] :=
  ⟨(roundRobin_next_first_alive s2Balancer (by decide) (by decide)).1,
    ((roundRobin_next_first_alive s2Balancer (by decide) (by decide)).2.1).trans (by decide),
    by decide⟩

/-- C11 as stated fails at the counter value `2 ^ 32 - 1`, reached after
`2 ^ 32 - 1` calls: on the all-alive pool `[A, B, C]` the counter wraps to `0`
and `Next` returns `A` (position `0`), while the first alive backend among the
positions `(i+1) mod 3, (i+2) mod 3, (i+3) mod 3 = 1, 2, 0` is `B`. -/
theorem roundRobin_next_first_alive_counterexample :
    (RoundRobin.after (2 ^ 32 - 1) (NewRoundRobin poolABC)).index = 2 ^ 32 - 1 ∧
    (RoundRobin.after (2 ^ 32 - 1) (NewRoundRobin poolABC)).servers = poolABC ∧
    ((RoundRobin.after (2 ^ 32 - 1) (NewRoundRobin poolABC)).Next).1 = some srvA ∧
    (firstAliveAmong poolABC (scanOrder 3 (2 ^ 32 - 1 + 1))).bind (fun p => poolABC[p]?)
      = some srvB ∧
    ((RoundRobin.after (2 ^ 32 - 1) (NewRoundRobin poolABC)).Next).1
      ≠ (firstAliveAmong poolABC (scanOrder 3 (2 ^ 32 - 1 + 1))).bind
          (fun p => poolABC[p]?) := by
  have hst : RoundRobin.after (2 ^ 32 - 1) (NewRoundRobin poolABC)
      = { servers := poolABC, index := 2 ^ 32 - 1 } := by
    have h1 := RoundRobin.after_servers (2 ^ 32 - 1) (NewRoundRobin poolABC)
    have h2 := RoundRobin.after_index (2 ^ 32 - 2) (NewRoundRobin poolABC) (by decide)
    have h3 : (2 : Nat) ^ 32 - 2 + 1 = 2 ^ 32 - 1 := by norm_num
    rw [h3] at h2
    cases hrr : RoundRobin.after (2 ^ 32 - 1) (NewRoundRobin poolABC) with
    | mk sv ix =>
      rw [hrr] at h1 h2
      simp only at h1 h2
      rw [h1, h2]
      have : u32 ((NewRoundRobin poolABC).index + (2 ^ 32 - 1)) = 2 ^ 32 - 1 := by decide
      rw [this]
      rfl
  rw [hst]
  decide

end CloudTestTask
